import Mathlib

/-!
Verification of the red-flag transcript pipeline
(`redflag_lambda_function`: `lambda_function.py`, `rd_utils.py`,
`translate_utils.py`) against its natural-language specification.

The Python source is shallowly embedded: pure string/list manipulation is
translated to executable Lean functions on `String`/`List Char`; the external
capabilities (Bedrock generative translation, Amazon Translate, NLTK's
`sent_tokenize`, POS tagging + WordNet lemmatization, and Python's `re`
engine) are passed as explicit function parameters, since their
implementations live outside this repository.  Machine floats and wall-clock
time are not modelled; `len` on Python strings is modelled by codepoint
length (`String.length`).  Python truthiness of an optional string is
modelled explicitly (`none` and `""` are falsy).
-/

namespace RedFlag

/-! ## Generic helpers

Core `String` functions such as `String.toLower`, `String.trim` or
`String.split` are defined by well-founded recursion on byte positions and
do not reduce inside the kernel, so concrete witnesses could not be checked
by `decide`.  The embedding therefore uses its own structurally recursive
character-list versions of the handful of Python string primitives it
needs. -/

/-- Python `str.lower()` (ASCII fragment, which covers every string the
source compares case-insensitively). -/
def strLower (s : String) : String :=
  ⟨s.data.map Char.toLower⟩

/-- Python `str.strip()` / `str.strip()`-truthiness support: drop leading
and trailing whitespace. -/
def strTrim (s : String) : String :=
  ⟨((s.data.dropWhile Char.isWhitespace).reverse.dropWhile
      Char.isWhitespace).reverse⟩

/-- Python `s.endswith(pat)`. -/
def strEndsWith (s pat : String) : Bool :=
  pat.data.isSuffixOf s.data

/-- Python `s[:-n]` for `n ≤ len(s)`. -/
def strDropRight (s : String) (n : Nat) : String :=
  ⟨s.data.take (s.data.length - n)⟩

/-- Insertion of a natural number into a sorted list (ascending). -/
def insertNat (x : Nat) : List Nat → List Nat
  | [] => [x]
  | y :: ys => if x ≤ y then x :: y :: ys else y :: insertNat x ys

/-- Ascending insertion sort on naturals; models Python's `sorted` on a
set of positions. -/
def sortNats : List Nat → List Nat
  | [] => []
  | x :: xs => insertNat x (sortNats xs)

/-- Lexicographic (codepoint) order on character lists, as Python compares
strings. -/
def listLexLe : List Char → List Char → Bool
  | [], _ => true
  | _ :: _, [] => false
  | a :: as, b :: bs => if a < b then true else if b < a then false else listLexLe as bs

/-- Python `a <= b` on strings. -/
def strLe (a b : String) : Bool :=
  listLexLe a.data b.data

/-- Insertion of a string into a lexicographically sorted list. -/
def insertStr (x : String) : List String → List String
  | [] => [x]
  | y :: ys => if strLe x y then x :: y :: ys else y :: insertStr x ys

/-- Lexicographic insertion sort on strings; models Python's `sorted` on a
list of keywords. -/
def sortStrings : List String → List String
  | [] => []
  | x :: xs => insertStr x (sortStrings xs)

/-- Case-insensitive substring test on lists of characters:
`pat` occurs contiguously inside `s`.  Used to model Python's `in`
operator on strings and `re.search` for literal patterns. -/
def listInfix (pat s : List Char) : Bool :=
  s.tails.any (fun t => pat.isPrefixOf t)

/-- Python `pat in s` for strings. -/
def strContains (s pat : String) : Bool :=
  listInfix pat.toList s.toList

/-- Python word character (`\w` of the `re` module, ASCII fragment):
letters, digits and underscore. -/
def isWordChar (c : Char) : Bool :=
  c.isAlphanum || c = '_'

/-- Fuel-driven maximal-run splitter (fuel-based so that it reduces in the
kernel; `fuel = l.length` always suffices because every step consumes at
least one character). -/
def runsGo (p : Char → Bool) : Nat → List Char → List (List Char)
  | 0, _ => []
  | _ + 1, [] => []
  | fuel + 1, c :: rest =>
    if p c then
      (c :: rest).takeWhile p :: runsGo p fuel ((c :: rest).dropWhile p)
    else
      runsGo p fuel rest

/-- Maximal runs of characters satisfying `p`. -/
def runsOf (p : Char → Bool) (l : List Char) : List (List Char) :=
  runsGo p l.length l

/-- Maximal runs of word characters in a character list; models
`re.findall(r'\b\w+\b', s)`, which returns exactly the maximal `\w+` runs. -/
def wordRuns (l : List Char) : List (List Char) :=
  runsOf isWordChar l

/-- Python `str.split()` (split on whitespace, dropping empties): the
maximal runs of non-whitespace characters. -/
def pySplitWs (s : String) : List String :=
  (runsOf (fun c => !c.isWhitespace) s.data).map List.asString

/-- Truthiness of a Python optional list (`None` and `[]` are falsy). -/
def optListTruthy (l : Option (List String)) : Bool :=
  match l with
  | none => false
  | some xs => xs ≠ []

/-- Maximum of a list of naturals (0 for the empty list; the source only
evaluates it on non-empty tuples, since an empty keyword list makes the
Python `max()` raise). -/
def listMax (l : List Nat) : Nat :=
  l.foldr max 0

/-- Minimum of a list of naturals (0 for the empty list; same caveat as
`listMax`). -/
def listMin : List Nat → Nat
  | [] => 0
  | a :: t => t.foldl min a

/-- Non-decreasing test: models Python's
`list(combination) == sorted(combination)`, which holds exactly when the
tuple is non-decreasing. -/
def isSortedLe : List Nat → Bool
  | [] => true
  | [_] => true
  | a :: b :: t => a ≤ b && isSortedLe (b :: t)

/-! ## `rd_utils.py`: the rule matcher -/

/-- Occurrence positions of `keyword` in the normalized word list; models
`[i for i, word in enumerate(normalized_words) if word == keyword]`. -/
def keywordPositions (normalizedWords : List String) (keyword : String) : List Nat :=
  (List.range normalizedWords.length).filter
    (fun i => normalizedWords.getD i "" = keyword)

/-- `match_with_regex(full_text, regex_patterns)` from `rd_utils.py`.
The `re.search` engine itself is external; it is supplied as the
case-insensitive matcher `reSearch pattern text`. -/
def match_with_regex (reSearch : String → String → Bool)
    (fullText : String) (regexPatterns : List String) : Bool :=
  regexPatterns.any (fun p => reSearch p fullText)

/-- Strict-order keyword tier of `check_rules` (`rd_utils.py` lines
193-208): lowercase the keywords, collect their occurrence positions, fail
if any keyword is absent, then search `itertools.product` of the position
lists for a tuple with `list(combination) == sorted(combination)` and
`max - min <= max_distance`.  `List.sections` enumerates exactly the tuples
of `itertools.product` (one position per keyword, in keyword order).
Defined for non-empty keyword lists: on `keywords = []` the source raises
(`max(())`). -/
def strictKeywordCheck (normalizedWords keywords : List String)
    (maxDistance : Nat) : Bool :=
  let positionLists :=
    (keywords.map strLower).map (keywordPositions normalizedWords)
  if positionLists.any List.isEmpty then false
  else positionLists.sections.any
    (fun c => isSortedLe c && listMax c - listMin c ≤ maxDistance)

/-- `check_rules` from `rd_utils.py`: regex tier first (inclusion patterns,
then exclusion patterns, both on the lowercased raw sentence), falling
through to the strict-order keyword tier. -/
def check_rules (reSearch : String → String → Bool)
    (normalizedWords : List String) (sentence : String)
    (keywords : List String) (maxDistance : Nat)
    (regexPatterns regexExclusionPatterns : Option (List String)) :
    Bool × String :=
  let fullText := strLower sentence
  if optListTruthy regexPatterns &&
      match_with_regex reSearch fullText (regexPatterns.getD []) then
    if optListTruthy regexExclusionPatterns &&
        match_with_regex reSearch fullText (regexExclusionPatterns.getD []) then
      (false, "regex")
    else
      (true, "regex")
  else
    (strictKeywordCheck normalizedWords keywords maxDistance, "strict_order")

/-- Sorted deduplicated union of all keyword occurrence positions; models
`sorted(set(pos for sublist in positions for pos in sublist))` in
`check_rules_any_order`. -/
def allPositions (normalizedWords keywords : List String) : List Nat :=
  sortNats ((((keywords.map strLower).map
      (keywordPositions normalizedWords)).flatten).dedup)

/-- Flexible-order keyword tier of `check_rules_any_order` (`rd_utils.py`
lines 114-139): fail if any (lowercased) keyword is absent, then slide a
window of length `len(keywords)` over the sorted union of all occurrence
positions and accept if some window spans at most `max_distance`.
`List.range (n + 1 - k)` is Python's `range(n - k + 1)` (empty when the
union is shorter than the keyword list).  Defined for non-empty keyword
lists: on `keywords = []` the source raises (negative indexing of an empty
list). -/
def flexKeywordCheck (normalizedWords keywords : List String)
    (maxDistance : Nat) : Bool :=
  let positionLists :=
    (keywords.map strLower).map (keywordPositions normalizedWords)
  if positionLists.any List.isEmpty then false
  else
    let all := allPositions normalizedWords keywords
    (List.range (all.length + 1 - keywords.length)).any
      (fun i => all.getD (i + keywords.length - 1) 0 - all.getD i 0 ≤ maxDistance)

/-- `check_rules_any_order` from `rd_utils.py`: same regex tier as
`check_rules`, falling through to the flexible-order keyword tier. -/
def check_rules_any_order (reSearch : String → String → Bool)
    (normalizedWords : List String) (sentence : String)
    (keywords : List String) (maxDistance : Nat)
    (regexPatterns regexExclusionPatterns : Option (List String)) :
    Bool × String :=
  let fullText := strLower sentence
  if optListTruthy regexPatterns &&
      match_with_regex reSearch fullText (regexPatterns.getD []) then
    if optListTruthy regexExclusionPatterns &&
        match_with_regex reSearch fullText (regexExclusionPatterns.getD []) then
      (false, "regex")
    else
      (true, "regex")
  else
    (flexKeywordCheck normalizedWords keywords maxDistance, "flexible_order")

/-- The regex tier of a rule does not decide the sentence: either no
inclusion patterns are configured (falsy) or none of them matches the
lowercased sentence. -/
def regexTierUndecided (reSearch : String → String → Bool)
    (sentence : String) (regexPatterns : Option (List String)) : Prop :=
  (optListTruthy regexPatterns &&
    match_with_regex reSearch (strLower sentence) (regexPatterns.getD [])) = false

/-! ## Spec-side formulations of the keyword tiers -/

/-- Formulation of the spec's strict-order clause, parametrized by the
order imposed on consecutive chosen positions: there is a tuple of one
occurrence position per keyword (case-insensitive), consecutive positions
related by `rel`, whose span `max - min` is at most `maxDistance`.
The claim uses `rel = (· < ·)` (strictly increasing); the code realizes
`rel = (· ≤ ·)` (non-decreasing). -/
def strictOrderSpec (rel : Nat → Nat → Prop)
    (normalizedWords keywords : List String) (maxDistance : Nat) : Prop :=
  ∃ ps : List Nat,
    List.Forall₂ (fun p k => p ∈ keywordPositions normalizedWords (strLower k))
      ps keywords ∧
    ps.Chain' rel ∧
    listMax ps - listMin ps ≤ maxDistance

/-- Formulation of the spec's flexible-order clause: every keyword occurs
at least once (case-insensitive), and some contiguous run of length
`len(keywords)` inside the sorted union of all occurrence positions spans
at most `maxDistance` (last position of the run minus first). -/
def flexOrderSpec (normalizedWords keywords : List String)
    (maxDistance : Nat) : Prop :=
  (∀ k ∈ keywords, keywordPositions normalizedWords (strLower k) ≠ []) ∧
  ∃ i, i + keywords.length ≤ (allPositions normalizedWords keywords).length ∧
    (allPositions normalizedWords keywords).getD (i + keywords.length - 1) 0 -
      (allPositions normalizedWords keywords).getD i 0 ≤ maxDistance


/-! ## `translate_utils.py` -/

/-- The language → Amazon-Translate-code table of `translate_utils.py`. -/
def language_map : List (String × String) :=
  [("English", "en"), ("German", "de"), ("Greek", "el"),
   ("Brazilian Portuguese", "pt"), ("Brazilian-Portuguese", "pt"),
   ("Portuguese-Brazilian", "pt"), ("Portuguese Brazilian", "pt"),
   ("Spanish", "es")]

/-- `get_language_code` (`language_map.get(language)`). -/
def get_language_code (language : String) : Option String :=
  language_map.lookup language

/-- Spanish red words that must surface in translation
(`translate_utils.py` line 132). -/
def redwords_to_flag : List String :=
  ["ludópata", "ludopata", "enganchado"]

/-! ## `lambda_function.py`: translation orchestration -/

/-- Outcome of the single-shot generative call run on a worker thread with
`thread.join(timeout=50)`: either the thread is still alive after 50
seconds (timeout), or it finished and `output.get("result", None)` is
`none` (the call raised, only `error` was stored) or the returned string. -/
inductive TimedCall where
  | timedOut : TimedCall
  | completed : Option String → TimedCall

/-- The empty/placeholder outputs rejected by the quality gate
(`sentences_to_flag.strip() in ["", "```\n\n```"]`). -/
def placeholderOutputs : List String :=
  ["", "```\n\n```"]

/-- Known Amazon Titan refusal messages (`lambda_function.py` line 316). -/
def refusalMessages : List String :=
  ["Sorry - this model is unable to respond to this request."]

/-- Single-shot Mistral path (`lambda_function.py` lines 343-398): on
timeout, missing/empty/placeholder output, or output shorter than half the
input, fall back to Amazon Translate; otherwise accept the generative
output.  `2 * len(out) < len(input)` is the integer form of
`len(out) < len(input) / 2`.  Returns the accepted text and the service
recorded in `translation_service_used`. -/
def singleShotMistral (detTranslate : String → String) (sentences : String)
    (call : TimedCall) : String × String :=
  match call with
  | .timedOut => (detTranslate sentences, "Amazon Translate")
  | .completed none => (detTranslate sentences, "Amazon Translate")
  | .completed (some out) =>
    if out = "" || placeholderOutputs.contains (strTrim out) then
      (detTranslate sentences, "Amazon Translate")
    else if 2 * out.length < sentences.length then
      (detTranslate sentences, "Amazon Translate")
    else
      (out, "Mistral LLM")

/-- Single-shot Amazon Titan path for Greek (`lambda_function.py` lines
285-341): same as the Mistral path, except that the second rejection tier
additionally rejects outputs containing a known refusal message. -/
def singleShotTitan (detTranslate : String → String) (sentences : String)
    (call : TimedCall) : String × String :=
  match call with
  | .timedOut => (detTranslate sentences, "Amazon Translate")
  | .completed none => (detTranslate sentences, "Amazon Translate")
  | .completed (some out) =>
    if out = "" || placeholderOutputs.contains (strTrim out) then
      (detTranslate sentences, "Amazon Translate")
    else if 2 * out.length < sentences.length ||
        refusalMessages.any (fun m => strContains (strTrim out) m) then
      (detTranslate sentences, "Amazon Translate")
    else
      (out, "Amazon Titan")

/-- Python truthiness filter
`[chunk for chunk in translated_chunks if chunk]` over per-chunk results:
`none` models a caught exception, and empty strings are dropped too. -/
def pyFilterTruthy (l : List (Option String)) : List String :=
  (l.filterMap id).filter (fun s => s ≠ "")

/-- Chunked translation for non-Greek languages (`lambda_function.py`
lines 160-282, the `for attempt in range(1, 3)` loop).  Attempt 1 runs
Mistral on every chunk (`gen 1`); if every chunk yields a truthy result
the outputs are joined with single spaces in original chunk order.
Otherwise all generative results are discarded and Amazon Translate
re-translates every chunk (`det`, a total function: an exception here
would crash the lambda, and an empty result is dropped by the truthiness
filter).  If that still covers fewer chunks than the total, the loop's
second iteration repeats the whole generative pass (`gen 2`); only if that
also fails does the call return `none` (`sentences_to_flag = None`).
Sequential `List.map` models the `ThreadPoolExecutor.map` calls, which
return results in input order regardless of completion order. -/
def translateChunksNonEl (gen : Nat → String → Option String)
    (det : String → String) (chunks : List String) : Option String :=
  let t1 := pyFilterTruthy (chunks.map (gen 1))
  if t1.length = chunks.length then some (String.intercalate " " t1)
  else
    let d1 := (chunks.map det).filter (fun s => s ≠ "")
    if d1.length = chunks.length then some (String.intercalate " " d1)
    else
      let t2 := pyFilterTruthy (chunks.map (gen 2))
      if t2.length = chunks.length then some (String.intercalate " " t2)
      else none

/-- Chunked translation for Greek (`translate_chunk` calls Amazon
Translate directly, with exceptions caught as `None`); the retry loop just
repeats the same deterministic pass once. -/
def translateChunksEl (detEl : Nat → String → Option String)
    (chunks : List String) : Option String :=
  let t1 := pyFilterTruthy (chunks.map (detEl 1))
  if t1.length = chunks.length then some (String.intercalate " " t1)
  else
    let t2 := pyFilterTruthy (chunks.map (detEl 2))
    if t2.length = chunks.length then some (String.intercalate " " t2)
    else none

/-! ## `lambda_function.py`: chunking -/

/-- Static configuration read from `rd_config.ini` (the file itself is
external configuration, so the values stay parameters). -/
structure Config where
  chunkingLengthThreshold : Nat
  chunkingLengthThresholdEl : Nat
  chunkingLengthThresholdPt : Nat
  splitThreshold : Nat

/-- The split-point markers of the chunker (`lambda_function.py` line
165). -/
def markers : List String :=
  ["CUSTOMER:", "CUSTOMER NAME:", "AGENT:", "AGENT NAME:", "BOT:"]

/-- Python `s.rfind(sub, 0, endIdx)`: the greatest start index of an
occurrence of `sub` lying entirely inside `s[0:endIdx]` (`none` for
Python's `-1`). -/
def rfindBefore (s sub : List Char) (endIdx : Nat) : Option Nat :=
  ((List.range (s.length + 1)).filter
    (fun i => i + sub.length ≤ endIdx && sub.isPrefixOf (s.drop i))).getLast?

/-- The marker-search loop: the greatest `rfind` result over all markers
(`closest_index`, with `-1` as `none`). -/
def bestMarkerIndex (s : List Char) (endIdx : Nat) : Option Nat :=
  markers.foldl (fun acc m =>
    match rfindBefore s m.data endIdx with
    | none => acc
    | some i =>
      match acc with
      | none => some i
      | some j => if i > j then some i else acc) none

/-- Fixed-size re-slicing
`[chunk[i : i + split_threshold] for i in range(0, len(chunk), split_threshold)]`
(fuel-based; `fuel = l.length` suffices for `n ≥ 1`; the source raises for
`split_threshold = 0`). -/
def splitEveryGo (n : Nat) : Nat → List Char → List (List Char)
  | 0, _ => []
  | _ + 1, [] => []
  | fuel + 1, c :: rest =>
    (c :: rest).take n :: splitEveryGo n fuel ((c :: rest).drop n)

/-- Fixed-size slices of at most `n` characters. -/
def splitEvery (n : Nat) (l : List Char) : List (List Char) :=
  splitEveryGo n l.length l

/-- The chunking block of `lambda_handler` (lines 163-197): find the
rightmost marker before `chunking_length_threshold + 500`, split there (or
at the raw threshold if no marker was found), re-slice each half at
`split_threshold`, and drop whitespace-only chunks. -/
def computeChunks (cfg : Config) (sentences : String) : List String :=
  let s := sentences.data
  let splitIndex :=
    (bestMarkerIndex s (cfg.chunkingLengthThreshold + 500)).getD
      cfg.chunkingLengthThreshold
  let chunk1 := s.take splitIndex
  let chunk2 := s.drop splitIndex
  let secondary1 :=
    if chunk1.length > cfg.splitThreshold then splitEvery cfg.splitThreshold chunk1
    else [chunk1]
  let secondary2 :=
    if chunk2.length > cfg.splitThreshold then splitEvery cfg.splitThreshold chunk2
    else [chunk2]
  (((secondary1 ++ secondary2).map List.asString).filter
    (fun c => strTrim c ≠ ""))

/-- The chunking decision of `lambda_handler` (lines 156-158): note `>=`
against the general threshold but strict `>` against the Greek and
Portuguese thresholds. -/
def needsChunking (cfg : Config) (langCode : Option String) (n : Nat) : Bool :=
  n ≥ cfg.chunkingLengthThreshold
  || (langCode = some "el" && n > cfg.chunkingLengthThresholdEl)
  || (langCode = some "pt" && n > cfg.chunkingLengthThresholdPt)

/-! ## `rd_utils.py`: the transcript pipeline -/

/-- A red-word rule as loaded from `rd_rules.json` (`flexible_order`
defaults to `False` via `rule.get`). -/
structure Rule where
  keywords : List String
  max_distance : Nat
  flexible_order : Bool
  regex_patterns : Option (List String)
  regex_exclusion_patterns : Option (List String)

/-- A parsed `{"sender": ..., "message": ...}` entry. -/
structure Message where
  sender : String
  message : String

/-- Case-insensitive (ASCII) prefix test, for `re.IGNORECASE` whole-word
name matching. -/
def ciPrefix : List Char → List Char → Bool
  | [], _ => true
  | _ :: _, [] => false
  | a :: as, b :: bs => (a.toLower = b.toLower) && ciPrefix as bs

/-- One `re.sub` pass of `replace_names_with_placeholders`: replace every
whole-word, case-insensitive occurrence of any part of the name with the
placeholder.  The scan walks the original string left to right
(non-overlapping, leftmost first, first matching alternative), tracking
whether the previously scanned original character was a word character
(the leading `\b`; name parts are taken to begin and end with word
characters, as real names do).  Fuel-based: `fuel = s.length` suffices
because every step consumes at least one character. -/
def replacePartsGo (parts : List (List Char)) (ph : List Char) :
    Nat → Bool → List Char → List Char
  | 0, _, s => s
  | _ + 1, _, [] => []
  | fuel + 1, prevW, c :: rest =>
    match
      (if prevW then none
       else parts.find? (fun p =>
        !p.isEmpty && ciPrefix p (c :: rest) &&
        !isWordChar ((c :: rest).getD p.length ' '))) with
    | some p =>
      ph ++ replacePartsGo parts ph fuel
        (isWordChar (((c :: rest).take p.length).getLastD ' '))
        ((c :: rest).drop p.length)
    | none => c :: replacePartsGo parts ph fuel (isWordChar c) rest

/-- Name → placeholder replacement for one mapping entry (skipped when
either side is empty, as in the source). -/
def replaceOneName (s : List Char) (name placeholder : String) : List Char :=
  if name = "" || placeholder = "" then s
  else
    replacePartsGo ((pySplitWs name).map String.data) placeholder.data
      s.length false s

/-- `[APM]` character class. -/
def isAPM (c : Char) : Bool :=
  c = 'A' || c = 'P' || c = 'M'

/-- Reversed-suffix matcher for
`timestamp_pattern = r"\(\d{2}:\d{2}:\d{2}(?:\s[APM]{2})?\)"`: the
argument is the reversed text ending at the match position. -/
def revTimestamp : List Char → Bool
  | ')' :: s2 :: s1 :: ':' :: m2 :: m1 :: ':' :: h2 :: h1 :: '(' :: _ =>
    s2.isDigit && s1.isDigit && m2.isDigit && m1.isDigit &&
      h2.isDigit && h1.isDigit
  | ')' :: p2 :: p1 :: sp :: s2 :: s1 :: ':' :: m2 :: m1 :: ':' :: h2 :: h1 :: '(' :: _ =>
    isAPM p2 && isAPM p1 && sp.isWhitespace && s2.isDigit && s1.isDigit &&
      m2.isDigit && m1.isDigit && h2.isDigit && h1.isDigit
  | _ => false

/-- `re.search(timestamp_pattern + r"\s$", before)` on the reversed prefix
`accRev` already scanned: a single whitespace preceded by a timestamp. -/
def revEndsTimestampWs (accRev : List Char) : Bool :=
  match accRev with
  | w :: rest => w.isWhitespace && revTimestamp rest
  | [] => false

/-- The literal word `AGENT`. -/
def agentWord : List Char :=
  ['A', 'G', 'E', 'N', 'T']

/-- Second stage of `replace_names_with_placeholders`: delete each
whole-word `AGENT` (case-sensitive, `re.sub(r"\bAGENT\b", ...)`) unless
the original text before it ends with a timestamp followed by one
whitespace character.  `accRev` holds the reversed original prefix already
scanned, since `remove_unless_timestamped` inspects
`transcript[:match.start()]`. -/
def stripAgentGo : Nat → List Char → List Char → List Char
  | 0, _, s => s
  | _ + 1, _, [] => []
  | fuel + 1, accRev, c :: rest =>
    let prevW :=
      match accRev with
      | [] => false
      | p :: _ => isWordChar p
    if !prevW && agentWord.isPrefixOf (c :: rest) &&
        !isWordChar ((c :: rest).getD 5 ' ') then
      if revEndsTimestampWs accRev then
        agentWord ++
          stripAgentGo fuel (agentWord.reverse ++ accRev) ((c :: rest).drop 5)
      else
        stripAgentGo fuel (agentWord.reverse ++ accRev) ((c :: rest).drop 5)
    else
      c :: stripAgentGo fuel (c :: accRev) rest

/-- `replace_names_with_placeholders` from `rd_utils.py`: the per-name
`re.sub` passes, then the untimestamped-`AGENT` removal. -/
def replace_names_with_placeholders (transcript : String)
    (nameMapping : List (String × String)) : String :=
  let replaced :=
    nameMapping.foldl (fun s p => replaceOneName s p.1 p.2) transcript.data
  ⟨stripAgentGo replaced.length [] replaced⟩

/-- The role labels, in the alternation order of the source regexes. -/
def labelWords : List (List Char) :=
  ["CUSTOMER".data, "BOT".data, "AGENT".data]

/-- Greedy `(?:\s+[A-Za-z]+)*` matcher: consume blocks of
whitespace-run + ASCII-letter-run, returning the consumed characters and
the rest.  Maximal munch agrees with Python's backtracking here because
nothing mandatory follows the starred group (the trailing `:?` is
optional). -/
def alphaBlocksGo : Nat → List Char → List Char × List Char
  | 0, s => ([], s)
  | fuel + 1, s =>
    let ws := s.takeWhile Char.isWhitespace
    let r1 := s.dropWhile Char.isWhitespace
    if ws.isEmpty then ([], s)
    else
      let al := r1.takeWhile Char.isAlpha
      let r2 := r1.dropWhile Char.isAlpha
      if al.isEmpty then ([], s)
      else
        let res := alphaBlocksGo fuel r2
        (ws ++ al ++ res.1, res.2)

/-- Match the `preprocess_transcript` pattern
`(?<![.!?])\s+((?:CUSTOMER|BOT|AGENT)(?:\s+[A-Za-z]+)*):?` at the head of
`s` (the lookbehind is the caller's duty).  Returns the captured group and
the number of characters consumed. -/
def matchPreprocAt (s : List Char) : Option (List Char × Nat) :=
  let ws := s.takeWhile Char.isWhitespace
  let r1 := s.dropWhile Char.isWhitespace
  if ws.isEmpty then none
  else
    match labelWords.find? (fun L => L.isPrefixOf r1) with
    | none => none
    | some L =>
      let r2 := r1.drop L.length
      let res := alphaBlocksGo r2.length r2
      let colonLen : Nat :=
        match res.2 with
        | ':' :: _ => 1
        | _ => 0
      some (L ++ res.1, ws.length + L.length + res.1.length + colonLen)

/-- The `re.sub` scan of `preprocess_transcript`: at each position whose
preceding original character is not `.`, `!` or `?`, replace a match of
the pattern by `". " + group + ":"`; otherwise copy one character. -/
def preprocessGo : Nat → Option Char → List Char → List Char
  | 0, _, s => s
  | _ + 1, _, [] => []
  | fuel + 1, prev, c :: rest =>
    let lookOk :=
      match prev with
      | none => true
      | some p => !(p = '.' || p = '!' || p = '?')
    match (if lookOk then matchPreprocAt (c :: rest) else none) with
    | some (grp, consumed) =>
      '.' :: ' ' :: (grp ++ [':']) ++
        preprocessGo fuel (some ((c :: rest).getD (consumed - 1) ' '))
          ((c :: rest).drop consumed)
    | none => c :: preprocessGo fuel (some c) rest

/-- `preprocess_transcript` from `rd_utils.py` (the sentence-boundary
`re.sub`, then `.strip()`). -/
def preprocess_transcript (transcript : String) : String :=
  strTrim ⟨preprocessGo transcript.data.length none transcript.data⟩

/-- Backtracking tail of the `parse_transcript` split lookahead: after the
label, accept `(?:\s+[A-Za-z]+)*:` — a colon now, or one more
whitespace+letters block and recurse. -/
def colonAfterBlocks : Nat → List Char → Bool
  | 0, _ => false
  | fuel + 1, s =>
    match s with
    | ':' :: _ => true
    | _ =>
      let ws := s.takeWhile Char.isWhitespace
      let r1 := s.dropWhile Char.isWhitespace
      if ws.isEmpty then false
      else
        let al := r1.takeWhile Char.isAlpha
        let r2 := r1.dropWhile Char.isAlpha
        if al.isEmpty then false else colonAfterBlocks fuel r2

/-- The zero-width split pattern
`(?=(?:(?:CUSTOMER|BOT|AGENT)(?:\s+[A-Za-z]+)*:))` of `parse_transcript`
matches at the head of `s`. -/
def lookaheadLabel (s : List Char) : Bool :=
  match labelWords.find? (fun L => L.isPrefixOf s) with
  | some L => colonAfterBlocks s.length (s.drop L.length)
  | none => false

/-- `re.split` on the zero-width lookahead: cut the string before every
position where the lookahead matches (a cut at position 0 contributes a
leading empty part, as in Python). -/
def splitAtLookahead (s : List Char) : List (List Char) :=
  let cuts := (List.range s.length).filter (fun i => lookaheadLabel (s.drop i))
  ((0 :: (cuts ++ [s.length])).zip (cuts ++ [s.length])).map
    (fun p => (s.take p.2).drop p.1)

/-- First index where `pat` occurs inside `s` (Python `s.split(pat, 1)`
splits at this index). -/
def findSubstr (s pat : List Char) : Option Nat :=
  ((List.range (s.length + 1)).filter (fun i => pat.isPrefixOf (s.drop i))).head?

/-- `parse_transcript` from `rd_utils.py`: split at label lookaheads, then
for each stripped part emit an entry per contained `AGENT:` / `BOT:` /
`CUSTOMER:` substring (in that order), with the message being everything
after the first occurrence, stripped. -/
def parse_transcript (transcript : String) : List Message :=
  (splitAtLookahead transcript.data).flatMap (fun part0 =>
    let part := (strTrim ⟨part0⟩).data
    (match findSubstr part "AGENT:".data with
     | some i => [⟨"AGENT", strTrim ⟨part.drop (i + 6)⟩⟩]
     | none => []) ++
    (match findSubstr part "BOT:".data with
     | some i => [⟨"BOT", strTrim ⟨part.drop (i + 4)⟩⟩]
     | none => []) ++
    (match findSubstr part "CUSTOMER:".data with
     | some i => [⟨"CUSTOMER", strTrim ⟨part.drop (i + 9)⟩⟩]
     | none => []))

/-- The fallback test of `flag_sentences` (`rd_utils.py` line 354): when
it holds, the whole raw transcript is treated as one Customer message. -/
def customerFallback (processed : String) : Bool :=
  !strContains processed "CUSTOMER" || strContains processed "CUSTOMER:@" ||
    strContains processed "Web User"

/-- Word extraction then external lemmatization:
`re.findall(r'\b\w+\b', sentence.lower())` fed to `lemmatize_words`
(NLTK POS tagging + WordNet, supplied as a parameter). -/
def normalizedWordsOf (lemmatizeWords : List String → List String)
    (sentence : String) : List String :=
  lemmatizeWords ((wordRuns (strLower sentence).data).map List.asString)

/-- The per-rule dispatch of `flag_sentences` on `flexible_order`. -/
def ruleMatches (reSearch : String → String → Bool) (nw : List String)
    (sentence : String) (rule : Rule) : Bool :=
  if rule.flexible_order then
    (check_rules_any_order reSearch nw sentence rule.keywords
      rule.max_distance rule.regex_patterns rule.regex_exclusion_patterns).1
  else
    (check_rules reSearch nw sentence rule.keywords
      rule.max_distance rule.regex_patterns rule.regex_exclusion_patterns).1

/-- The insertion-ordered `sentence_to_rule_map` update: start a new entry
or extend the keyword set of an existing sentence. -/
def updateMap (m : List (String × List String)) (sentence : String)
    (kws : List String) : List (String × List String) :=
  match m with
  | [] => [(sentence, kws)]
  | (s, ks) :: t =>
    if s = sentence then (s, ks ++ kws) :: t
    else (s, ks) :: updateMap t sentence kws

/-- The nested rule-application loop of `flag_sentences`. -/
def flagLoop (reSearch : String → String → Bool)
    (lemmatizeWords : List String → List String) (rules : List Rule)
    (sentences : List String) : List (String × List String) :=
  sentences.foldl (fun m sentence =>
    let nw := normalizedWordsOf lemmatizeWords sentence
    rules.foldl (fun m rule =>
      if ruleMatches reSearch nw sentence rule then
        updateMap m sentence rule.keywords
      else m) m) []

/-- `flag_sentences` from `rd_utils.py`: name replacement, punctuation
preprocessing, parsing into sender-attributed messages (with the
whole-transcript Customer fallback), sentence tokenization of the
customer-attributed messages only, the rule loop, and the final
`(sentence, sorted(list(keyword_set)))` report.  `sentTokenize` stands for
NLTK's `sent_tokenize`. -/
def flag_sentences (reSearch : String → String → Bool)
    (sentTokenize : String → List String)
    (lemmatizeWords : List String → List String)
    (sentences : String) (rules : List Rule)
    (nameMapping : List (String × String)) :
    Bool × List (String × List String) :=
  let replaced := replace_names_with_placeholders sentences nameMapping
  let processed := preprocess_transcript replaced
  let messages :=
    if customerFallback processed then [⟨"CUSTOMER", sentences⟩]
    else parse_transcript processed
  let allSentences :=
    (messages.filter
      (fun m => strContains (strLower m.sender) "customer")).flatMap
      (fun m => sentTokenize m.message)
  let m := flagLoop reSearch lemmatizeWords rules allSentences
  (!m.isEmpty, m.map (fun p => (p.1, sortStrings p.2.dedup)))

/-! ## `lambda_function.py`: the handler -/

/-- The event fields the handler reads. -/
structure Event where
  incrementalTranscript : String
  language : String
  customerName : String
  agentName : String
  channel : String

/-- The external capabilities consumed by one invocation: Mistral chunk
translation per loop attempt, Greek chunk translation per attempt, Amazon
Translate (total — the spec assumes it reliable, and an exception outside
`translate_chunk` would crash the lambda), the single-shot generative
call's outcome, Python's `re.search` (case-insensitive), NLTK
`sent_tokenize` and `lemmatize_words`. -/
structure Oracles where
  gen : Nat → String → Option String
  detChunkEl : Nat → String → Option String
  det : String → String
  singleCall : TimedCall
  reSearch : String → String → Bool
  sentTokenize : String → List String
  lemmatizeWords : List String → List String

/-- The translation stage of `lambda_handler` (chat channel, lines
146-398): English passes through, oversized texts go through the chunked
loop, everything else through the timed single-shot path with
deterministic fallback.  `none` is `sentences_to_flag = None`. -/
def translationPhase (cfg : Config) (O : Oracles) (ev : Event) :
    Option String :=
  let sentences := ev.incrementalTranscript
  let code := get_language_code ev.language
  if strLower ev.language = "english" || strLower ev.language = "en" then
    some sentences
  else if needsChunking cfg code sentences.length then
    let chunks := computeChunks cfg sentences
    if code = some "el" then translateChunksEl O.detChunkEl chunks
    else translateChunksNonEl O.gen O.det chunks
  else
    if code = some "el" then
      some (singleShotTitan O.det sentences O.singleCall).1
    else
      some (singleShotMistral O.det sentences O.singleCall).1

/-- Spanish red-word safety net (`lambda_handler` lines 402-409): if the
language is Spanish and the original text matches the joined red-word
pattern (case-insensitive), append `CUSTOMER: I am addicted` to the
translated text (inside a trailing triple-backtick fence if present). -/
def spanishRedwordAppend (reSearch : String → String → Bool)
    (language original translated : String) : String :=
  if (strLower language = "spanish" || strLower language = "es") &&
      reSearch (String.intercalate "|" redwords_to_flag) original then
    if strEndsWith translated "```" then
      strDropRight translated 3 ++ "CUSTOMER: I am addicted```"
    else
      translated ++ " CUSTOMER: I am addicted"
  else
    translated

/-- The handler's observable outcome: the returned
`{"red_word_flag": int(flagged)}` plus the `sentences_flagged` evidence
written to the audit log (`none` is Python's `None` on the non-chat path,
`some []` the empty list of the fail-open path). -/
structure HandlerResult where
  redWordFlag : Nat
  sentencesFlagged : Option (List (String × List String))
  deriving DecidableEq

/-- `lambda_handler` from `lambda_function.py`: non-chat channels bypass
everything; otherwise translate, apply the Spanish safety net, and run the
red-words matcher when translation yielded a truthy text (`None` and `""`
fail open to `flagged = False, []`). -/
def lambdaHandler (cfg : Config) (rules : List Rule) (O : Oracles)
    (ev : Event) : HandlerResult :=
  if strLower ev.channel ≠ "chat" then ⟨0, none⟩
  else
    match translationPhase cfg O ev with
    | none => ⟨0, some []⟩
    | some t =>
      if t = "" then ⟨0, some []⟩
      else
        let t2 :=
          spanishRedwordAppend O.reSearch ev.language
            ev.incrementalTranscript t
        let res :=
          flag_sentences O.reSearch O.sentTokenize O.lemmatizeWords t2 rules
            [(ev.customerName, "CUSTOMER"), (ev.agentName, "AGENT")]
        ⟨if res.1 then 1 else 0, some res.2⟩

/-- Split a character list on `|` (for modelling alternation patterns). -/
def splitOnBar (l : List Char) : List (List Char) :=
  runsOf (fun c => c ≠ '|') l

/-- Literal-alternation model of `re.search(p, t, re.IGNORECASE)` for the
patterns this code base builds by joining literal words with `|`:
case-insensitive substring search for any alternative.  Used to
instantiate the abstract `reSearch` oracle in concrete witnesses. -/
def altLiteralSearch (p t : String) : Bool :=
  (splitOnBar p.data).any (fun w => listInfix (w.map Char.toLower) (strLower t).data)

/-- The claim's rejection condition for a completed single-shot
translation, WITH the refusal-phrase disjunct: output missing, empty or
placeholder-only, shorter than half the input, or containing a known
refusal message. -/
def rejectCondWithRefusal (sentences : String) (r : Option String) : Prop :=
  r = none ∨ ∃ out, r = some out ∧
    (out = "" ∨ strTrim out ∈ placeholderOutputs ∨
     2 * out.length < sentences.length ∨
     ∃ m ∈ refusalMessages, strContains (strTrim out) m = true)

/-- The rejection condition actually realized by the Mistral single-shot
path: as `rejectCondWithRefusal` but WITHOUT the refusal-phrase
disjunct. -/
def rejectCondNoRefusal (sentences : String) (r : Option String) : Prop :=
  r = none ∨ ∃ out, r = some out ∧
    (out = "" ∨ strTrim out ∈ placeholderOutputs ∨
     2 * out.length < sentences.length)

/-! ## Lemmas about the keyword tiers -/

theorem isSortedLe_iff : ∀ {l : List Nat}, isSortedLe l = true ↔ l.Chain' (· ≤ ·)
  | [] => by simp [isSortedLe]
  | [_] => by simp [isSortedLe]
  | a :: b :: t => by
    rw [isSortedLe, Bool.and_eq_true, decide_eq_true_iff, List.chain'_cons,
      isSortedLe_iff]

/-- Membership in the per-keyword occurrence-position lists, stated over
the keyword list. -/
theorem forall₂_positionLists {normalizedWords keywords : List String}
    {c : List Nat} :
    List.Forall₂ (· ∈ ·) c
        ((keywords.map strLower).map (keywordPositions normalizedWords)) ↔
      List.Forall₂
        (fun p k => p ∈ keywordPositions normalizedWords (strLower k))
        c keywords := by
  rw [List.map_map, List.forall₂_map_right_iff]
  rfl

/-- The early-exit test of both keyword tiers: some occurrence list is
empty iff some keyword never occurs. -/
theorem anyEmpty_iff {normalizedWords keywords : List String} :
    ((keywords.map strLower).map
        (keywordPositions normalizedWords)).any List.isEmpty = true ↔
      ∃ k ∈ keywords, keywordPositions normalizedWords (strLower k) = [] := by
  rw [List.map_map, List.any_eq_true]
  constructor
  · rintro ⟨l, hl, he⟩
    rcases List.mem_map.mp hl with ⟨k, hk, rfl⟩
    exact ⟨k, hk, List.isEmpty_iff.mp he⟩
  · rintro ⟨k, hk, he⟩
    exact ⟨keywordPositions normalizedWords (strLower k),
      List.mem_map.mpr ⟨k, hk, rfl⟩, List.isEmpty_iff.mpr he⟩

/-- The strict-order keyword tier decides exactly the non-decreasing
version of the spec's positional condition. -/
theorem strictKeywordCheck_iff (normalizedWords keywords : List String)
    (maxDistance : Nat) :
    strictKeywordCheck normalizedWords keywords maxDistance = true ↔
      strictOrderSpec (· ≤ ·) normalizedWords keywords maxDistance := by
  unfold strictKeywordCheck strictOrderSpec
  simp only []
  constructor
  · intro h
    by_cases he : ((keywords.map strLower).map
        (keywordPositions normalizedWords)).any List.isEmpty
    · rw [if_pos he] at h; exact absurd h (by simp)
    · rw [if_neg he, List.any_eq_true] at h
      rcases h with ⟨c, hc, hprop⟩
      rw [Bool.and_eq_true, decide_eq_true_iff] at hprop
      exact ⟨c, forall₂_positionLists.mp (List.mem_sections.mp hc),
        isSortedLe_iff.mp hprop.1, hprop.2⟩
  · rintro ⟨ps, hf, hch, hd⟩
    have hne : ¬ ((keywords.map strLower).map
        (keywordPositions normalizedWords)).any List.isEmpty = true := by
      rw [anyEmpty_iff]
      rintro ⟨k, hk, he⟩
      rcases List.forall₂_iff_get.mp hf with ⟨hlen, hget⟩
      rcases List.mem_iff_get.mp hk with ⟨i, rfl⟩
      have := hget i (by omega) i.isLt
      rw [he] at this
      exact absurd this (List.not_mem_nil _)
    rw [if_neg hne, List.any_eq_true]
    refine ⟨ps, List.mem_sections.mpr (forall₂_positionLists.mpr hf), ?_⟩
    rw [Bool.and_eq_true, decide_eq_true_iff]
    exact ⟨isSortedLe_iff.mpr hch, hd⟩

/-- The flexible-order keyword tier decides exactly the spec's
presence-plus-window condition. -/
theorem flexKeywordCheck_iff (normalizedWords keywords : List String)
    (maxDistance : Nat) :
    flexKeywordCheck normalizedWords keywords maxDistance = true ↔
      flexOrderSpec normalizedWords keywords maxDistance := by
  unfold flexKeywordCheck flexOrderSpec
  simp only []
  constructor
  · intro h
    by_cases he : ((keywords.map strLower).map
        (keywordPositions normalizedWords)).any List.isEmpty
    · rw [if_pos he] at h; exact absurd h (by simp)
    · rw [if_neg he, List.any_eq_true] at h
      rcases h with ⟨i, hi, hprop⟩
      rw [List.mem_range] at hi
      rw [decide_eq_true_iff] at hprop
      refine ⟨?_, i, by omega, hprop⟩
      intro k hk hke
      exact he (anyEmpty_iff.mpr ⟨k, hk, hke⟩)
  · rintro ⟨hall, i, hi, hspan⟩
    have hne : ¬ ((keywords.map strLower).map
        (keywordPositions normalizedWords)).any List.isEmpty = true := by
      rw [anyEmpty_iff]
      rintro ⟨k, hk, he⟩
      exact hall k hk he
    rw [if_neg hne, List.any_eq_true]
    exact ⟨i, List.mem_range.mpr (by omega), decide_eq_true_iff.mpr hspan⟩

/-! ## Claim theorems: the keyword tiers (C2, C3) -/

/-- Claim C2 (amended): for a rule with `flexible_order=false` whose regex
tier does not decide the sentence, the strict-order match succeeds iff
there is a tuple of one occurrence position per keyword (case-insensitive,
over the lemmatized word list) whose positions are NON-DECREASING in
keyword order with `max - min <= max_distance`.  (The claim's "strictly
increasing" is refuted by `c2_counterexample`: Python's
`list(combination) == sorted(combination)` admits repeated positions.) -/
theorem c2_strict_order_nondecreasing (reSearch : String → String → Bool)
    (normalizedWords : List String) (sentence : String)
    (keywords : List String) (maxDistance : Nat)
    (regexPatterns regexExclusionPatterns : Option (List String))
    (hkw : keywords ≠ [])
    (hnd : regexTierUndecided reSearch sentence regexPatterns) :
    (check_rules reSearch normalizedWords sentence keywords maxDistance
        regexPatterns regexExclusionPatterns).1 = true ↔
      strictOrderSpec (· ≤ ·) normalizedWords keywords maxDistance := by
  unfold check_rules
  rw [regexTierUndecided] at hnd
  simp only [hnd, Bool.false_eq_true, if_false]
  exact strictKeywordCheck_iff normalizedWords keywords maxDistance

/-- Witness for `c2_strict_order_nondecreasing` at the spec's own example:
keywords `["a","b"]`, `max_distance = 2`, lemmatized words `["a","x","b"]`,
no regex patterns. -/
theorem c2_strict_order_nondecreasing_witness :
    (["a", "b"] : List String) ≠ [] ∧
    regexTierUndecided (fun _ _ => false) "a x b" none ∧
    ((check_rules (fun _ _ => false) ["a", "x", "b"] "a x b" ["a", "b"] 2
        none none).1 = true ↔
      strictOrderSpec (· ≤ ·) ["a", "x", "b"] ["a", "b"] 2) :=
  ⟨by decide, by unfold regexTierUndecided; decide,
    c2_strict_order_nondecreasing (fun _ _ => false) ["a", "x", "b"] "a x b"
      ["a", "b"] 2 none none (by decide)
      (by unfold regexTierUndecided; decide)⟩

/-- Counterexample to claim C2 as stated: with the duplicated keyword list
`["a","a"]`, lemmatized words `["a"]` and `max_distance = 0`, the code
matches (the tuple `(0, 0)` passes `list(c) == sorted(c)`), but no
STRICTLY increasing tuple of occurrence positions exists. -/
theorem c2_counterexample :
    (check_rules (fun _ _ => false) ["a"] "a a" ["a", "a"] 0
        none none).1 = true ∧
    ¬ strictOrderSpec (· < ·) ["a"] ["a", "a"] 0 := by
  constructor
  · decide
  · rintro ⟨ps, hf, hch, -⟩
    have hpos : keywordPositions ["a"] (strLower "a") = [0] := by decide
    cases hf with
    | cons hp hf =>
      cases hf with
      | cons hq hf =>
        cases hf
        rw [hpos, List.mem_singleton] at hp hq
        subst hp; subst hq
        rw [List.chain'_cons] at hch
        exact absurd hch.1 (lt_irrefl 0)

/-- Claim C3: for a rule with `flexible_order=true` whose regex tier does
not decide the sentence, the flexible-order match succeeds iff every
keyword occurs at least once (case-insensitive) and some contiguous run of
length `len(keywords)` in the sorted union of all occurrence positions
spans at most `max_distance`. -/
theorem c3_flexible_order (reSearch : String → String → Bool)
    (normalizedWords : List String) (sentence : String)
    (keywords : List String) (maxDistance : Nat)
    (regexPatterns regexExclusionPatterns : Option (List String))
    (hkw : keywords ≠ [])
    (hnd : regexTierUndecided reSearch sentence regexPatterns) :
    (check_rules_any_order reSearch normalizedWords sentence keywords
        maxDistance regexPatterns regexExclusionPatterns).1 = true ↔
      flexOrderSpec normalizedWords keywords maxDistance := by
  unfold check_rules_any_order
  rw [regexTierUndecided] at hnd
  simp only [hnd, Bool.false_eq_true, if_false]
  exact flexKeywordCheck_iff normalizedWords keywords maxDistance

/-- Witness for `c3_flexible_order` at the spec's own example: keywords
`["a","b"]`, `max_distance = 2`, lemmatized words `["b","x","a"]` (reversed
order), no regex patterns. -/
theorem c3_flexible_order_witness :
    (["a", "b"] : List String) ≠ [] ∧
    regexTierUndecided (fun _ _ => false) "b x a" none ∧
    ((check_rules_any_order (fun _ _ => false) ["b", "x", "a"] "b x a"
        ["a", "b"] 2 none none).1 = true ↔
      flexOrderSpec ["b", "x", "a"] ["a", "b"] 2) :=
  ⟨by decide, by unfold regexTierUndecided; decide,
    c3_flexible_order (fun _ _ => false) ["b", "x", "a"] "b x a"
      ["a", "b"] 2 none none (by decide)
      (by unfold regexTierUndecided; decide)⟩


/-! ## Lemmas about chunked translation -/

theorem pyFilterTruthy_map_eq {f : String → Option String}
    {v : String → String} :
    ∀ {l : List String}, (∀ c ∈ l, f c = some (v c) ∧ v c ≠ "") →
      pyFilterTruthy (l.map f) = l.map v := by
  intro l
  induction l with
  | nil => intro _; rfl
  | cons c t ih =>
    intro h
    have hc := h c (by simp)
    have ht := ih (fun x hx => h x (by simp [hx]))
    simp only [pyFilterTruthy, List.map_cons, List.filterMap_cons, hc.1,
      id_eq] at *
    rw [List.filter_cons, if_pos (by simpa using hc.2), ht]

theorem pyFilterTruthy_length_le (l : List (Option String)) :
    (pyFilterTruthy l).length ≤ l.length :=
  le_trans (List.length_filter_le _ _) (List.length_filterMap_le id l)

theorem pyFilterTruthy_cons_le (x : Option String) (l : List (Option String)) :
    (pyFilterTruthy (x :: l)).length ≤ (pyFilterTruthy l).length + 1 := by
  cases x with
  | none => simp [pyFilterTruthy, List.filterMap_cons]
  | some s =>
    by_cases hs : s = ""
    · simp [pyFilterTruthy, List.filterMap_cons, List.filter_cons, hs]
    · simp [pyFilterTruthy, List.filterMap_cons, List.filter_cons, hs]

theorem pyFilterTruthy_length_lt {f : String → Option String} :
    ∀ {l : List String}, (∃ c ∈ l, f c = none ∨ f c = some "") →
      (pyFilterTruthy (l.map f)).length < l.length := by
  intro l
  induction l with
  | nil => rintro ⟨c, hc, -⟩; exact absurd hc (List.not_mem_nil c)
  | cons c t ih =>
    rintro ⟨x, hx, hfail⟩
    rcases List.mem_cons.mp hx with rfl | hxt
    · have : pyFilterTruthy ((x :: t).map f) = pyFilterTruthy (t.map f) := by
        rcases hfail with h | h <;>
          simp [pyFilterTruthy, List.filterMap_cons, h, List.filter_cons]
      rw [this]
      exact lt_of_le_of_lt (pyFilterTruthy_length_le _) (by simp)
    · calc (pyFilterTruthy ((c :: t).map f)).length
          ≤ (pyFilterTruthy (t.map f)).length + 1 :=
            pyFilterTruthy_cons_le (f c) (t.map f)
        _ < t.length + 1 := by
            have := ih ⟨x, hxt, hfail⟩; omega
        _ = (c :: t).length := by simp

/-! ## Claim theorems: chunked translation (C5, C6) -/

/-- Claim C5 (amended): if some chunk's generative translation fails in
the first pass, then (a) when the deterministic re-translation of every
chunk succeeds, the accepted output is exactly the deterministic
translations of ALL chunks joined in order (global fallback, no
generative/deterministic mixing); (b) when the deterministic pass covers
fewer chunks than the total, the retry loop runs one more FULL generative
pass: if it fully succeeds its (purely generative) joined output is
accepted, and only if it fails as well does the call yield `None`.  (The
claim's "if the deterministic pass also yields fewer successful chunks
than N the call produces None" is refuted by `c5_counterexample`.) -/
theorem c5_global_fallback (gen : Nat → String → Option String)
    (det : String → String) (chunks : List String)
    (hfail : ∃ c ∈ chunks, gen 1 c = none ∨ gen 1 c = some "") :
    ((∀ c ∈ chunks, det c ≠ "") →
      translateChunksNonEl gen det chunks =
        some (String.intercalate " " (chunks.map det))) ∧
    (((chunks.map det).filter (fun s => s ≠ "")).length ≠ chunks.length →
      (∀ v : String → String,
        (∀ c ∈ chunks, gen 2 c = some (v c) ∧ v c ≠ "") →
        translateChunksNonEl gen det chunks =
          some (String.intercalate " " (chunks.map v))) ∧
      ((pyFilterTruthy (chunks.map (gen 2))).length ≠ chunks.length →
        translateChunksNonEl gen det chunks = none)) := by
  have h1 : (pyFilterTruthy (chunks.map (gen 1))).length ≠ chunks.length := by
    have := pyFilterTruthy_length_lt hfail; omega
  constructor
  · intro hdet
    have hd : (chunks.map det).filter (fun s => s ≠ "") = chunks.map det :=
      List.filter_eq_self.mpr (by
        intro a ha
        rcases List.mem_map.mp ha with ⟨c, hc, rfl⟩
        simpa using hdet c hc)
    unfold translateChunksNonEl
    rw [if_neg h1, hd, if_pos (by simp)]
  · intro hdlen
    constructor
    · intro v hv
      have hg2 := pyFilterTruthy_map_eq hv
      unfold translateChunksNonEl
      rw [if_neg h1, if_neg hdlen, hg2, if_pos (by simp)]
    · intro hg2len
      unfold translateChunksNonEl
      rw [if_neg h1, if_neg hdlen, if_neg hg2len]

/-- Witness for `c5_global_fallback`: two chunks, the first Mistral call
failing on chunk 1, Amazon Translate succeeding on both; the result is the
ordered join of the deterministic translations of both chunks. -/
theorem c5_global_fallback_witness :
    (∃ c ∈ (["c1", "c2"] : List String),
      (fun a c => if a = 1 then (none : Option String) else some ("H" ++ c)) 1 c = none ∨
      (fun a c => if a = 1 then (none : Option String) else some ("H" ++ c)) 1 c = some "") ∧
    translateChunksNonEl
      (fun a c => if a = 1 then (none : Option String) else some ("H" ++ c))
      (fun c => "D" ++ c) ["c1", "c2"] =
      some (String.intercalate " " ((["c1", "c2"] : List String).map (fun c => "D" ++ c))) :=
  ⟨⟨"c1", by decide, by decide⟩,
    (c5_global_fallback
      (fun a c => if a = 1 then (none : Option String) else some ("H" ++ c))
      (fun c => "D" ++ c) ["c1", "c2"]
      ⟨"c1", by decide, by decide⟩).1 (by decide)⟩

/-- Counterexample to claim C5 as stated: the first generative pass fails
on chunk `c1` and the deterministic pass yields an empty (hence dropped)
translation for `c2`, so fewer deterministic chunks than the total; yet
the call does NOT produce `None` — the `for attempt in range(1, 3)` loop
runs a second full generative pass, which succeeds and is accepted. -/
theorem c5_counterexample :
    (fun a c => if a = 1 then (if c = "c1" then none else some ("G" ++ c))
      else some ("H" ++ c)) 1 "c1" = (none : Option String) ∧
    (((["c1", "c2", "c3"] : List String).map
        (fun c => if c = "c2" then "" else "D" ++ c)).filter
        (fun s => s ≠ "")).length ≠ (["c1", "c2", "c3"] : List String).length ∧
    translateChunksNonEl
      (fun a c => if a = 1 then (if c = "c1" then none else some ("G" ++ c))
        else some ("H" ++ c))
      (fun c => if c = "c2" then "" else "D" ++ c)
      ["c1", "c2", "c3"] = some "Hc1 Hc2 Hc3" := by
  refine ⟨by decide, by decide, by decide⟩

/-- Claim C6: when every chunk of the first generative pass succeeds with
a truthy output, the accepted translation is the per-chunk translations in
original chunk index order, joined by single spaces.  (The embedding's
`List.map` mirrors `ThreadPoolExecutor.map`, which yields results in input
order regardless of completion order.) -/
theorem c6_order_preserving_join (gen : Nat → String → Option String)
    (det : String → String) (chunks : List String) (v : String → String)
    (h : ∀ c ∈ chunks, gen 1 c = some (v c) ∧ v c ≠ "") :
    translateChunksNonEl gen det chunks =
      some (String.intercalate " " (chunks.map v)) := by
  have hg := pyFilterTruthy_map_eq h
  unfold translateChunksNonEl
  rw [hg, if_pos (by simp)]

/-- Witness for `c6_order_preserving_join` on three concrete chunks. -/
theorem c6_order_preserving_join_witness :
    (∀ c ∈ (["x", "y", "z"] : List String),
      (fun _ c => some ("T" ++ c)) 1 c = some ((fun c => "T" ++ c) c) ∧
      (fun c => "T" ++ c) c ≠ "") ∧
    translateChunksNonEl (fun _ c => some ("T" ++ c)) (fun _ => "DET")
      ["x", "y", "z"] = some "Tx Ty Tz" :=
  ⟨by decide, by
    have := c6_order_preserving_join (fun _ c => some ("T" ++ c))
      (fun _ => "DET") ["x", "y", "z"] (fun c => "T" ++ c) (by decide)
    simpa using this⟩



/-! ## Claim theorems: single-shot quality gate (C8) -/

/-- Claim C8 (amended): a single-shot generative translation that
completes within the 50-second timeout is rejected in favour of the
deterministic translator (with `service_used = "Amazon Translate"`) iff —
on the Greek/Titan path — the output is missing, empty or
placeholder-only, shorter than half the input, or contains a known refusal
phrase; on the Mistral path (every other language) the refusal-phrase
check is ABSENT, and rejection happens iff the output is missing, empty or
placeholder-only, or shorter than half the input.  (The claim's uniform
refusal-phrase clause is refuted by `c8_counterexample`.) -/
theorem c8_single_shot_quality_gate (detTranslate : String → String)
    (sentences : String) (r : Option String) :
    (singleShotTitan detTranslate sentences (.completed r) =
        (detTranslate sentences, "Amazon Translate") ↔
      rejectCondWithRefusal sentences r) ∧
    (singleShotMistral detTranslate sentences (.completed r) =
        (detTranslate sentences, "Amazon Translate") ↔
      rejectCondNoRefusal sentences r) := by
  cases r with
  | none =>
    exact ⟨iff_of_true rfl (Or.inl rfl), iff_of_true rfl (Or.inl rfl)⟩
  | some out =>
    by_cases h1 : (out = "" || placeholderOutputs.contains (strTrim out)) = true
    · have hP1 : out = "" ∨ strTrim out ∈ placeholderOutputs := by
        rcases Bool.or_eq_true _ _ |>.mp h1 with h | h
        · exact Or.inl (by simpa using h)
        · exact Or.inr (by simpa using h)
      constructor
      · refine iff_of_true ?_ (Or.inr ⟨out, rfl, ?_⟩)
        · simp only [singleShotTitan]; rw [if_pos h1]
        · rcases hP1 with h | h
          · exact Or.inl h
          · exact Or.inr (Or.inl h)
      · refine iff_of_true ?_ (Or.inr ⟨out, rfl, ?_⟩)
        · simp only [singleShotMistral]; rw [if_pos h1]
        · rcases hP1 with h | h
          · exact Or.inl h
          · exact Or.inr (Or.inl h)
    · have hne : ¬ out = "" := by
        intro h; exact h1 (by simp [h])
      have hnp : ¬ strTrim out ∈ placeholderOutputs := by
        intro h; exact h1 (by simp [h])
      constructor
      · by_cases h2 : (decide (2 * out.length < sentences.length) ||
            refusalMessages.any (fun m => strContains (strTrim out) m)) = true
        · refine iff_of_true ?_ (Or.inr ⟨out, rfl, ?_⟩)
          · simp only [singleShotTitan]; rw [if_neg h1, if_pos h2]
          · rcases Bool.or_eq_true _ _ |>.mp h2 with h | h
            · exact Or.inr (Or.inr (Or.inl (by simpa using h)))
            · exact Or.inr (Or.inr (Or.inr (List.any_eq_true.mp h)))
        · have h2f := Bool.or_eq_false_iff.mp (Bool.eq_false_iff.mpr h2)
          refine iff_of_false ?_ ?_
          · have hres : singleShotTitan detTranslate sentences
                (.completed (some out)) = (out, "Amazon Titan") := by
              simp only [singleShotTitan]; rw [if_neg h1, if_neg h2]
            rw [hres]
            intro hcontra
            have := congrArg Prod.snd hcontra
            simp only at this
            exact absurd this (by decide)
          · rintro (h | ⟨out', heq, hd⟩)
            · exact Option.noConfusion h
            · cases Option.some.inj heq
              rcases hd with h | h | h | ⟨m, hm, hmc⟩
              · exact hne h
              · exact hnp h
              · exact absurd (decide_eq_true h) (by rw [h2f.1]; decide)
              · have := List.any_eq_true.mpr ⟨m, hm, hmc⟩
                rw [h2f.2] at this
                exact Bool.noConfusion this
      · by_cases h2 : 2 * out.length < sentences.length
        · refine iff_of_true ?_
            (Or.inr ⟨out, rfl, Or.inr (Or.inr h2)⟩)
          simp only [singleShotMistral]; rw [if_neg h1, if_pos h2]
        · refine iff_of_false ?_ ?_
          · have hres : singleShotMistral detTranslate sentences
                (.completed (some out)) = (out, "Mistral LLM") := by
              simp only [singleShotMistral]; rw [if_neg h1, if_neg h2]
            rw [hres]
            intro hcontra
            have := congrArg Prod.snd hcontra
            simp only at this
            exact absurd this (by decide)
          · rintro (h | ⟨out', heq, hd⟩)
            · exact Option.noConfusion h
            · cases Option.some.inj heq
              rcases hd with h | h | h
              · exact hne h
              · exact hnp h
              · exact h2 h

/-- Witness for `c8_single_shot_quality_gate` at a concrete completed
call. -/
theorem c8_single_shot_quality_gate_witness :
    (singleShotTitan (fun _ => "DET") "hello" (.completed (some "ok there")) =
        ((fun _ : String => "DET") "hello", "Amazon Translate") ↔
      rejectCondWithRefusal "hello" (some "ok there")) ∧
    (singleShotMistral (fun _ => "DET") "hello" (.completed (some "ok there")) =
        ((fun _ : String => "DET") "hello", "Amazon Translate") ↔
      rejectCondNoRefusal "hello" (some "ok there")) :=
  c8_single_shot_quality_gate (fun _ => "DET") "hello" (some "ok there")

/-- Counterexample to claim C8 as stated: on the Mistral single-shot path
an output that IS a known refusal phrase (and passes the length check) is
accepted as the generative result instead of being rejected. -/
theorem c8_counterexample :
    (∃ m ∈ refusalMessages,
      strContains (strTrim
        "Sorry - this model is unable to respond to this request.") m = true) ∧
    singleShotMistral (fun _ => "DET") "ab"
        (.completed
          (some "Sorry - this model is unable to respond to this request.")) =
      ("Sorry - this model is unable to respond to this request.",
        "Mistral LLM") := by
  constructor
  · exact ⟨"Sorry - this model is unable to respond to this request.",
      by decide, by decide⟩
  · decide



/-! ## Claim theorems: chunking decision (C7) -/

/-- Claim C7 (amended): the single-shot path is taken iff the text length
is STRICTLY below the general `chunking_length_threshold` and, for Greek
resp. Portuguese, additionally at most the language-specific threshold.
Chunking already triggers at a length exactly equal to the general
threshold (the code compares with `>=`), refuting the claim's "at most the
threshold" boundary (`c7_counterexample`); the language-specific
comparisons are strict, as the claim says. -/
theorem c7_chunking_decision (cfg : Config) (langCode : Option String)
    (n : Nat) :
    needsChunking cfg langCode n = false ↔
      (n < cfg.chunkingLengthThreshold ∧
       (langCode = some "el" → n ≤ cfg.chunkingLengthThresholdEl) ∧
       (langCode = some "pt" → n ≤ cfg.chunkingLengthThresholdPt)) := by
  unfold needsChunking
  by_cases he : langCode = some "el"
  · have hp : langCode ≠ some "pt" := by rw [he]; simp
    simp [he, hp]
  · by_cases hp : langCode = some "pt"
    · simp [he, hp]
    · simp [he, hp]

/-- Counterexample to claim C7 as stated: a German text whose length is
exactly the (language-adjusted = general) chunk threshold is chunked, even
though its length does not exceed the threshold. -/
theorem c7_counterexample :
    (100 : Nat) ≤ (Config.mk 100 50 50 30).chunkingLengthThreshold ∧
    needsChunking (Config.mk 100 50 50 30) (get_language_code "German") 100 =
      true := by
  constructor
  · decide
  · decide

/-! ## Claim theorems: the handler (C4, C9, C10) -/

/-- Claim C10: whenever the Channel field differs from "chat"
case-insensitively, the handler returns `red_word_flag = 0` with no
evidence (`sentence_to_rule = None`), for every configuration, rule set,
transcript, language and oracle — and the result does not depend on the
translation/matching oracles at all (the whole pipeline is bypassed). -/
theorem c10_non_chat_bypass (cfg : Config) (rules : List Rule) (O : Oracles)
    (ev : Event) (hch : strLower ev.channel ≠ "chat") :
    lambdaHandler cfg rules O ev = ⟨0, none⟩ ∧
    (∀ (cfg' : Config) (rules' : List Rule) (O' : Oracles),
      lambdaHandler cfg rules O ev = lambdaHandler cfg' rules' O' ev) := by
  have h : lambdaHandler cfg rules O ev = ⟨0, none⟩ := by
    unfold lambdaHandler
    rw [if_pos hch]
  refine ⟨h, fun cfg' rules' O' => ?_⟩
  rw [h]
  unfold lambdaHandler
  rw [if_pos hch]

/-- Witness for `c10_non_chat_bypass` on a concrete voice-channel
event. -/
theorem c10_non_chat_bypass_witness :
    strLower (Event.mk "t" "Spanish" "A" "B" "VOICE").channel ≠ "chat" ∧
    lambdaHandler (Config.mk 1 1 1 1) []
      (Oracles.mk (fun _ _ => none) (fun _ _ => none) (fun _ => "")
        .timedOut (fun _ _ => false) (fun s => [s]) id)
      (Event.mk "t" "Spanish" "A" "B" "VOICE") = ⟨0, none⟩ :=
  ⟨by decide,
    (c10_non_chat_bypass (Config.mk 1 1 1 1) []
      (Oracles.mk (fun _ _ => none) (fun _ _ => none) (fun _ => "")
        .timedOut (fun _ _ => false) (fun s => [s]) id)
      (Event.mk "t" "Spanish" "A" "B" "VOICE") (by decide)).1⟩

/-- Claim C4: on the chat channel, when translation fails entirely
(`sentences_to_flag = None`), the handler returns the degraded fail-open
result: `red_word_flag = 0` and an empty evidence list, with no error
raised (the embedding is a total function). -/
theorem c4_fail_open (cfg : Config) (rules : List Rule) (O : Oracles)
    (ev : Event) (hch : strLower ev.channel = "chat")
    (htr : translationPhase cfg O ev = none) :
    lambdaHandler cfg rules O ev = ⟨0, some []⟩ := by
  unfold lambdaHandler
  rw [if_neg (by rw [hch]; exact fun h => h rfl), htr]

/-- Witness for `c4_fail_open`: a Spanish transcript long enough to
chunk, with both generative passes raising and the deterministic pass
returning empty strings, so that both tiers are exhausted. -/
theorem c4_fail_open_witness :
    strLower (Event.mk "abcdefgh" "Spanish" "Alice" "Bob" "chat").channel =
      "chat" ∧
    translationPhase (Config.mk 5 3 3 100)
      (Oracles.mk (fun _ _ => none) (fun _ _ => none) (fun _ => "")
        .timedOut (fun _ _ => false) (fun s => [s]) id)
      (Event.mk "abcdefgh" "Spanish" "Alice" "Bob" "chat") = none ∧
    lambdaHandler (Config.mk 5 3 3 100) []
      (Oracles.mk (fun _ _ => none) (fun _ _ => none) (fun _ => "")
        .timedOut (fun _ _ => false) (fun s => [s]) id)
      (Event.mk "abcdefgh" "Spanish" "Alice" "Bob" "chat") = ⟨0, some []⟩ :=
  ⟨by decide, by decide,
    c4_fail_open (Config.mk 5 3 3 100) []
      (Oracles.mk (fun _ _ => none) (fun _ _ => none) (fun _ => "")
        .timedOut (fun _ _ => false) (fun s => [s]) id)
      (Event.mk "abcdefgh" "Spanish" "Alice" "Bob" "chat")
      (by decide) (by decide)⟩

/-- Claim C9 (amended): for Spanish, when the original (untranslated)
text matches the red-word pattern, the canonical synthetic customer
sentence is appended to the (truthy) translated text UNCONDITIONALLY —
there is no check whether the translation already contains the canonical
English phrase — after translation and before matching: the text handed
to `flag_sentences` is exactly the appended text.  (The claim's "only if
the translated output does not already contain the canonical phrase" is
refuted by `c9_counterexample`.) -/
theorem c9_unconditional_append (cfg : Config) (rules : List Rule)
    (O : Oracles) (ev : Event) (t : String)
    (hch : strLower ev.channel = "chat")
    (htr : translationPhase cfg O ev = some t) (ht : t ≠ "")
    (hlang : strLower ev.language = "spanish" ∨ strLower ev.language = "es")
    (hre : O.reSearch (String.intercalate "|" redwords_to_flag)
      ev.incrementalTranscript = true) :
    spanishRedwordAppend O.reSearch ev.language ev.incrementalTranscript t =
      (if strEndsWith t "```" then
        strDropRight t 3 ++ "CUSTOMER: I am addicted```"
      else t ++ " CUSTOMER: I am addicted") ∧
    lambdaHandler cfg rules O ev =
      ⟨if (flag_sentences O.reSearch O.sentTokenize O.lemmatizeWords
          (if strEndsWith t "```" then
            strDropRight t 3 ++ "CUSTOMER: I am addicted```"
          else t ++ " CUSTOMER: I am addicted") rules
          [(ev.customerName, "CUSTOMER"), (ev.agentName, "AGENT")]).1
        then 1 else 0,
       some (flag_sentences O.reSearch O.sentTokenize O.lemmatizeWords
          (if strEndsWith t "```" then
            strDropRight t 3 ++ "CUSTOMER: I am addicted```"
          else t ++ " CUSTOMER: I am addicted") rules
          [(ev.customerName, "CUSTOMER"), (ev.agentName, "AGENT")]).2⟩ := by
  have hcond : ((strLower ev.language = "spanish" ||
      strLower ev.language = "es") &&
      O.reSearch (String.intercalate "|" redwords_to_flag)
        ev.incrementalTranscript) = true := by
    rw [hre]
    rcases hlang with h | h <;> simp [h]
  have happ : spanishRedwordAppend O.reSearch ev.language
      ev.incrementalTranscript t =
      (if strEndsWith t "```" then
        strDropRight t 3 ++ "CUSTOMER: I am addicted```"
      else t ++ " CUSTOMER: I am addicted") := by
    unfold spanishRedwordAppend
    rw [if_pos hcond]
  refine ⟨happ, ?_⟩
  unfold lambdaHandler
  rw [if_neg (by rw [hch]; exact fun h => h rfl), htr]
  simp only [if_neg ht, happ]

/-- Witness for `c9_unconditional_append`: a short Spanish transcript
containing `ludopata`, whose single-shot Mistral translation is accepted;
the matched text is the translation plus the synthetic sentence. -/
theorem c9_unconditional_append_witness :
    strLower (Event.mk "soy ludopata" "Spanish" "Ana" "Bea" "chat").channel =
      "chat" ∧
    translationPhase (Config.mk 1000 1000 1000 1000)
      (Oracles.mk (fun _ _ => none) (fun _ _ => none) (fun _ => "DET")
        (.completed (some "CUSTOMER: I am addicted to betting"))
        altLiteralSearch (fun s => [s]) id)
      (Event.mk "soy ludopata" "Spanish" "Ana" "Bea" "chat") =
      some "CUSTOMER: I am addicted to betting" ∧
    spanishRedwordAppend altLiteralSearch "Spanish" "soy ludopata"
        "CUSTOMER: I am addicted to betting" =
      (if strEndsWith "CUSTOMER: I am addicted to betting" "```" then
        strDropRight "CUSTOMER: I am addicted to betting" 3 ++
          "CUSTOMER: I am addicted```"
      else "CUSTOMER: I am addicted to betting" ++
        " CUSTOMER: I am addicted") :=
  ⟨by decide, by decide,
    (c9_unconditional_append (Config.mk 1000 1000 1000 1000) []
      (Oracles.mk (fun _ _ => none) (fun _ _ => none) (fun _ => "DET")
        (.completed (some "CUSTOMER: I am addicted to betting"))
        altLiteralSearch (fun s => [s]) id)
      (Event.mk "soy ludopata" "Spanish" "Ana" "Bea" "chat")
      "CUSTOMER: I am addicted to betting"
      (by decide) (by decide) (by decide) (Or.inl (by decide))
      (by decide)).1⟩

/-- Counterexample to claim C9 as stated: the translated text already
contains the canonical English phrase `I am addicted`, the original
Spanish text matches the red-word pattern, and the synthetic sentence is
appended anyway (the source has no already-contains check). -/
theorem c9_counterexample :
    strContains "CUSTOMER: I am addicted to this" "I am addicted" = true ∧
    spanishRedwordAppend altLiteralSearch "Spanish" "soy ludopata"
        "CUSTOMER: I am addicted to this" =
      "CUSTOMER: I am addicted to this CUSTOMER: I am addicted" := by
  constructor
  · decide
  · decide



/-! ## Lemmas about `flag_sentences` provenance (C1) -/

/-- Every entry of an updated `sentence_to_rule_map` either has the
inserted sentence as key or comes from the previous map. -/
theorem updateMap_fst :
    ∀ {m : List (String × List String)} {s : String} {kws : List String}
      {p : String × List String}, p ∈ updateMap m s kws →
      p.1 = s ∨ ∃ q ∈ m, p.1 = q.1 := by
  intro m
  induction m with
  | nil =>
    intro s kws p hp
    simp only [updateMap, List.mem_singleton] at hp
    subst hp; exact Or.inl rfl
  | cons a t ih =>
    obtain ⟨a1, a2⟩ := a
    intro s kws p hp
    rw [updateMap] at hp
    by_cases hs : a1 = s
    · rw [if_pos hs] at hp
      rcases List.mem_cons.mp hp with rfl | hpt
      · exact Or.inl hs
      · exact Or.inr ⟨p, List.mem_cons_of_mem _ hpt, rfl⟩
    · rw [if_neg hs] at hp
      rcases List.mem_cons.mp hp with rfl | hpt
      · exact Or.inr ⟨(a1, a2), List.mem_cons_self _ _, rfl⟩
      · rcases ih hpt with h | ⟨q, hq, h⟩
        · exact Or.inl h
        · exact Or.inr ⟨q, List.mem_cons_of_mem _ hq, h⟩

/-- The inner rule loop only ever inserts the current sentence as a key. -/
theorem foldl_rules_fst (reSearch : String → String → Bool)
    (nw : List String) (sentence : String) :
    ∀ (rules : List Rule) (m₀ : List (String × List String))
      (p : String × List String),
      p ∈ rules.foldl (fun m rule =>
        if ruleMatches reSearch nw sentence rule then
          updateMap m sentence rule.keywords
        else m) m₀ →
      p.1 = sentence ∨ ∃ q ∈ m₀, p.1 = q.1 := by
  intro rules
  induction rules with
  | nil => intro m₀ p hp; exact Or.inr ⟨p, hp, rfl⟩
  | cons r rs ih =>
    intro m₀ p hp
    rw [List.foldl_cons] at hp
    rcases ih _ p hp with h | ⟨q, hq, h⟩
    · exact Or.inl h
    · by_cases hr : ruleMatches reSearch nw sentence r
      · rw [if_pos hr] at hq
        rcases updateMap_fst hq with h2 | ⟨q2, hq2, h2⟩
        · exact Or.inl (h.trans h2)
        · exact Or.inr ⟨q2, hq2, h.trans h2⟩
      · rw [if_neg hr] at hq
        exact Or.inr ⟨q, hq, h⟩

/-- Accumulator-generalized provenance for the outer sentence loop. -/
theorem flagLoop_fst_aux (reSearch : String → String → Bool)
    (lemmatizeWords : List String → List String) (rules : List Rule) :
    ∀ (ss : List String) (m₀ : List (String × List String))
      (p : String × List String),
      p ∈ ss.foldl (fun m sentence =>
        rules.foldl (fun m rule =>
          if ruleMatches reSearch (normalizedWordsOf lemmatizeWords sentence)
              sentence rule then
            updateMap m sentence rule.keywords
          else m) m) m₀ →
      (∃ s ∈ ss, p.1 = s) ∨ ∃ q ∈ m₀, p.1 = q.1 := by
  intro ss
  induction ss with
  | nil => intro m₀ p hp; exact Or.inr ⟨p, hp, rfl⟩
  | cons s ts ih =>
    intro m₀ p hp
    rw [List.foldl_cons] at hp
    rcases ih _ p hp with ⟨s2, hs2, h⟩ | ⟨q, hq, h⟩
    · exact Or.inl ⟨s2, List.mem_cons_of_mem _ hs2, h⟩
    · rcases foldl_rules_fst reSearch
          (normalizedWordsOf lemmatizeWords s) s rules m₀ q hq with
        h2 | ⟨q2, hq2, h2⟩
      · exact Or.inl ⟨s, List.mem_cons_self _ _, h.trans h2⟩
      · exact Or.inr ⟨q2, hq2, h.trans h2⟩

/-- Every key of the `sentence_to_rule_map` built by the rule loop is one
of the tokenized sentences. -/
theorem flagLoop_key_mem {reSearch : String → String → Bool}
    {lemmatizeWords : List String → List String} {rules : List Rule}
    {ss : List String} {p : String × List String}
    (hp : p ∈ flagLoop reSearch lemmatizeWords rules ss) : p.1 ∈ ss := by
  rcases flagLoop_fst_aux reSearch lemmatizeWords rules ss [] p hp with
    ⟨s, hs, h⟩ | ⟨q, hq, -⟩
  · rw [h]; exact hs
  · exact absurd hq (List.not_mem_nil q)

/-- `parse_transcript` only produces the three role senders. -/
theorem parse_sender {t : String} {m : Message}
    (hm : m ∈ parse_transcript t) :
    m.sender = "AGENT" ∨ m.sender = "BOT" ∨ m.sender = "CUSTOMER" := by
  unfold parse_transcript at hm
  rcases List.mem_flatMap.mp hm with ⟨part0, hpart, hmem⟩
  simp only at hmem
  rcases List.mem_append.mp hmem with h | h
  · rcases List.mem_append.mp h with h | h
    · cases hfs : findSubstr (strTrim ⟨part0⟩).data "AGENT:".data with
      | none => rw [hfs] at h; exact absurd h (List.not_mem_nil m)
      | some i =>
        rw [hfs] at h
        rcases List.mem_singleton.mp h with rfl
        exact Or.inl rfl
    · cases hfs : findSubstr (strTrim ⟨part0⟩).data "BOT:".data with
      | none => rw [hfs] at h; exact absurd h (List.not_mem_nil m)
      | some i =>
        rw [hfs] at h
        rcases List.mem_singleton.mp h with rfl
        exact Or.inr (Or.inl rfl)
  · cases hfs : findSubstr (strTrim ⟨part0⟩).data "CUSTOMER:".data with
    | none => rw [hfs] at h; exact absurd h (List.not_mem_nil m)
    | some i =>
      rw [hfs] at h
      rcases List.mem_singleton.mp h with rfl
      exact Or.inr (Or.inr rfl)

/-! ## Claim theorems: role exclusion (C1) -/

/-- Claim C1 (amended): rule matching is applied only to
Customer-attributed sentences PROVIDED the processed transcript contains a
`CUSTOMER` token and contains neither `CUSTOMER:@` nor `Web User`: every
flagged sentence then comes, via the sentence tokenizer, from a parsed
message whose sender is `CUSTOMER`.  When that proviso fails, the whole
raw transcript — Agent text included — is treated as one Customer message,
so an Agent-only transcript with a matching phrase is flagged
(`c1_counterexample`). -/
theorem c1_role_exclusion (reSearch : String → String → Bool)
    (sentTokenize : String → List String)
    (lemmatizeWords : List String → List String)
    (sentences : String) (rules : List Rule)
    (nameMapping : List (String × String))
    (hfb : customerFallback (preprocess_transcript
      (replace_names_with_placeholders sentences nameMapping)) = false) :
    ∀ p ∈ (flag_sentences reSearch sentTokenize lemmatizeWords sentences
        rules nameMapping).2,
      ∃ m ∈ parse_transcript (preprocess_transcript
          (replace_names_with_placeholders sentences nameMapping)),
        m.sender = "CUSTOMER" ∧ p.1 ∈ sentTokenize m.message := by
  intro p hp
  simp only [flag_sentences, hfb, Bool.false_eq_true, if_false] at hp
  rcases List.mem_map.mp hp with ⟨q, hq, rfl⟩
  have hkey : q.1 ∈ (((parse_transcript (preprocess_transcript
      (replace_names_with_placeholders sentences nameMapping))).filter
      (fun m => strContains (strLower m.sender) "customer")).flatMap
      (fun m => sentTokenize m.message)) := flagLoop_key_mem hq
  rcases List.mem_flatMap.mp hkey with ⟨msg, hmsg, hsent⟩
  have hfilt := List.mem_filter.mp hmsg
  have hsender : msg.sender = "CUSTOMER" := by
    rcases parse_sender hfilt.1 with h | h | h
    · rw [h] at hfilt
      exact absurd hfilt.2 (by decide)
    · rw [h] at hfilt
      exact absurd hfilt.2 (by decide)
    · exact h
  exact ⟨msg, hfilt.1, hsender, hsent⟩

/-- Witness for `c1_role_exclusion`: a transcript whose `AGENT` token is
preceded by a timestamp and which contains a proper `CUSTOMER:` turn; only
the Agent utters the flagged word, and the transcript is not flagged. -/
theorem c1_role_exclusion_witness :
    customerFallback (preprocess_transcript (replace_names_with_placeholders
      "(10:00:00) AGENT: I am a ludopata. (10:00:05) CUSTOMER: hello there."
      [("Alice", "CUSTOMER"), ("Bob", "AGENT")])) = false ∧
    (∀ p ∈ (flag_sentences altLiteralSearch (fun s => [s]) id
        "(10:00:00) AGENT: I am a ludopata. (10:00:05) CUSTOMER: hello there."
        [⟨["ludopata"], 0, false, none, none⟩]
        [("Alice", "CUSTOMER"), ("Bob", "AGENT")]).2,
      ∃ m ∈ parse_transcript (preprocess_transcript
          (replace_names_with_placeholders
            "(10:00:00) AGENT: I am a ludopata. (10:00:05) CUSTOMER: hello there."
            [("Alice", "CUSTOMER"), ("Bob", "AGENT")])),
        m.sender = "CUSTOMER" ∧ p.1 ∈ [m.message]) ∧
    (flag_sentences altLiteralSearch (fun s => [s]) id
        "(10:00:00) AGENT: I am a ludopata. (10:00:05) CUSTOMER: hello there."
        [⟨["ludopata"], 0, false, none, none⟩]
        [("Alice", "CUSTOMER"), ("Bob", "AGENT")]).1 = false :=
  ⟨by decide,
    c1_role_exclusion altLiteralSearch (fun s => [s]) id
      "(10:00:00) AGENT: I am a ludopata. (10:00:05) CUSTOMER: hello there."
      [⟨["ludopata"], 0, false, none, none⟩]
      [("Alice", "CUSTOMER"), ("Bob", "AGENT")] (by decide),
    by decide⟩

/-- Counterexample to claim C1 as stated: a transcript in which ONLY the
Agent says the rule-matching word (there is no Customer turn at all).  The
name-replacement stage strips the untimestamped `AGENT` token, the
processed transcript therefore contains no `CUSTOMER`, and the fallback of
`flag_sentences` feeds the ENTIRE raw transcript — the Agent's words — to
the rule matcher: the transcript is flagged, not `flagged = false` as the
claim requires. -/
theorem c1_counterexample :
    flag_sentences altLiteralSearch (fun s => [s]) id
        "AGENT: I am a ludopata" [⟨["ludopata"], 0, false, none, none⟩]
        [("Alice", "CUSTOMER"), ("Bob", "AGENT")] =
      (true, [("AGENT: I am a ludopata", ["ludopata"])]) := by
  decide


end RedFlag
